import Mathlib

/-!
Verification of the level simulation and progression engine of the
arcadejogos repository: a shallow embedding, in Lean 4, of the progress
store (GameState.ts), the wind-zone / jump / hint logic of MainScene,
the level loader and validator (loadLevel.ts, schema.ts) and the event
bus (events.ts), together with theorems settling the specified
properties.  Numbers that the source manipulates as JavaScript numbers
are embedded as Nat (times, counters, millisecond timers) or Rat
(coordinates and forces); JavaScript Maps keyed by strings are embedded
as association lists with JS Map insertion semantics.
-/

namespace Arcade

/-- Association-list lookup, embedding `Map.get` for string keys. -/
def alGet {α : Type} (m : List (String × α)) (k : String) : Option α :=
  match m with
  | [] => none
  | (k1, v) :: rest => if k1 = k then some v else alGet rest k

/-- Association-list update, embedding `Map.set`: replaces the value at an
existing key in place, otherwise appends the new entry (JS Map keeps the
insertion order of keys). -/
def alSet {α : Type} (m : List (String × α)) (k : String) (v : α) : List (String × α) :=
  match m with
  | [] => [(k, v)]
  | (k1, v1) :: rest => if k1 = k then (k1, v) :: rest else (k1, v1) :: alSet rest k v

theorem alGet_alSet_self {α : Type} (m : List (String × α)) (k : String) (v : α) :
    alGet (alSet m k v) k = some v := by
  induction m with
  | nil => simp [alGet, alSet]
  | cons hd tl ih =>
    obtain ⟨k1, v1⟩ := hd
    by_cases h : k1 = k
    · simp [alGet, alSet, h]
    · simp [alGet, alSet, h, ih]

theorem alGet_alSet_ne {α : Type} (m : List (String × α)) (k k2 : String) (v : α)
    (h : k2 ≠ k) : alGet (alSet m k v) k2 = alGet m k2 := by
  induction m with
  | nil => simp [alGet, alSet, Ne.symm h]
  | cons hd tl ih =>
    obtain ⟨k1, v1⟩ := hd
    by_cases h1 : k1 = k
    · subst h1
      simp [alGet, alSet, Ne.symm h]
    · simp only [alSet, if_neg h1]
      by_cases h2 : k1 = k2
      · simp [alGet, h2]
      · simp [alGet, h2, ih]

/-! ## Progress store (GameState.ts) -/

/-- Embeds the `LevelProgress` interface of schema.ts. -/
structure LevelProgress where
  levelId : String
  completed : Bool
  bestTimeMs : Option Nat
  bestCollectibles : Nat
  totalDeaths : Nat
deriving Repr, DecidableEq

/-- Embeds the `LevelCompletionData` interface of schema.ts. -/
structure LevelCompletionData where
  id : String
  timeMs : Nat
  picked : Nat
  deaths : Nat
deriving Repr, DecidableEq

/-- Embeds `GameStateData` of GameState.ts (the selected-level field plays no
role in the claims and is omitted; `levelProgress` is the Map embedded as an
association list). -/
structure GameStateData where
  levelProgress : List (String × LevelProgress)
  totalCoinsCollected : Nat
  totalDeaths : Nat
deriving Repr, DecidableEq

/-- The freshly-defaulted record `completeLevel` and `updateLevelProgress`
build when no record exists yet. -/
def defaultProgress (levelId : String) : LevelProgress :=
  { levelId := levelId
    completed := false
    bestTimeMs := none
    bestCollectibles := 0
    totalDeaths := 0 }

/-- The record stored for a level, defaulted exactly as the source defaults a
missing record. -/
def recordOf (s : GameStateData) (levelId : String) : LevelProgress :=
  (alGet s.levelProgress levelId).getD (defaultProgress levelId)

/-- Embeds `GameStateManager.completeLevel` of GameState.ts: merges the
completion data into the per-level record (min best time with null as no
previous time, max best collectibles, cumulative deaths) and bumps the two
store-wide aggregates. -/
def completeLevel (s : GameStateData) (levelId : String) (d : LevelCompletionData) :
    GameStateData :=
  let current := (alGet s.levelProgress levelId).getD (defaultProgress levelId)
  let updated : LevelProgress :=
    { levelId := levelId
      completed := true
      bestTimeMs :=
        some (match current.bestTimeMs with
          | none => d.timeMs
          | some t => min t d.timeMs)
      bestCollectibles := max current.bestCollectibles d.picked
      totalDeaths := current.totalDeaths + d.deaths }
  { levelProgress := alSet s.levelProgress levelId updated
    totalCoinsCollected := s.totalCoinsCollected + d.picked
    totalDeaths := s.totalDeaths + d.deaths }

/-- Runs a whole sequence of completions for one level id, oldest first. -/
def completeAll (s : GameStateData) (levelId : String) (l : List LevelCompletionData) :
    GameStateData :=
  l.foldl (fun st d => completeLevel st levelId d) s

/-- Order on optional best times with `none` (never completed) as plus
infinity: `timeLE a b` says the newer value `a` is at most the older `b`. -/
def timeLE (a b : Option Nat) : Prop :=
  ∀ t, b = some t → ∃ u, a = some u ∧ u ≤ t

theorem timeLE_refl (a : Option Nat) : timeLE a a := by
  intro t ht
  exact ⟨t, ht, le_refl t⟩

theorem timeLE_trans {a b c : Option Nat} (h1 : timeLE a b) (h2 : timeLE b c) :
    timeLE a c := by
  intro t ht
  obtain ⟨u, hu, hut⟩ := h2 t ht
  obtain ⟨v, hv, hvu⟩ := h1 u hu
  exact ⟨v, hv, le_trans hvu hut⟩

theorem recordOf_completeLevel (s : GameStateData) (levelId : String)
    (d : LevelCompletionData) :
    recordOf (completeLevel s levelId d) levelId =
      { levelId := levelId
        completed := true
        bestTimeMs :=
          some (match (recordOf s levelId).bestTimeMs with
            | none => d.timeMs
            | some t => min t d.timeMs)
        bestCollectibles := max (recordOf s levelId).bestCollectibles d.picked
        totalDeaths := (recordOf s levelId).totalDeaths + d.deaths } := by
  simp [recordOf, completeLevel, alGet_alSet_self]

theorem recordOf_completeAll_deaths (s : GameStateData) (levelId : String)
    (l : List LevelCompletionData) :
    (recordOf (completeAll s levelId l) levelId).totalDeaths =
      (recordOf s levelId).totalDeaths + (l.map LevelCompletionData.deaths).sum := by
  induction l generalizing s with
  | nil => simp [completeAll]
  | cons d l ih =>
    have hstep : completeAll s levelId (d :: l) =
        completeAll (completeLevel s levelId d) levelId l := rfl
    rw [hstep, ih, recordOf_completeLevel]
    simp
    omega

theorem recordOf_completeAll_collectibles (s : GameStateData) (levelId : String)
    (l : List LevelCompletionData) :
    (recordOf s levelId).bestCollectibles ≤
      (recordOf (completeAll s levelId l) levelId).bestCollectibles := by
  induction l generalizing s with
  | nil => simp [completeAll]
  | cons d l ih =>
    have hstep : completeAll s levelId (d :: l) =
        completeAll (completeLevel s levelId d) levelId l := rfl
    rw [hstep]
    refine le_trans ?_ (ih (completeLevel s levelId d))
    rw [recordOf_completeLevel]
    exact le_max_left _ _

theorem recordOf_completeAll_bestTime (s : GameStateData) (levelId : String)
    (l : List LevelCompletionData) :
    timeLE (recordOf (completeAll s levelId l) levelId).bestTimeMs
      (recordOf s levelId).bestTimeMs := by
  induction l generalizing s with
  | nil => exact timeLE_refl _
  | cons d l ih =>
    have hstep : completeAll s levelId (d :: l) =
        completeAll (completeLevel s levelId d) levelId l := rfl
    rw [hstep]
    refine timeLE_trans (ih (completeLevel s levelId d)) ?_
    rw [recordOf_completeLevel]
    intro t ht
    rw [ht]
    exact ⟨min t d.timeMs, rfl, min_le_left _ _⟩

/-- C1: after `completeLevel` the stored record has completed = true, best
time the minimum of the previous best (null as plus infinity) and the new
time, best collectibles the maximum, and per-level deaths the previous total
plus the new deaths, defaulting to null/0/0 when no record existed; and over
any sequence of completions for an id, best time is non-increasing, best
collectibles non-decreasing, and per-level total deaths is the running sum of
all deaths passed for that id. -/
theorem completeLevel_merge_correct (s : GameStateData) (levelId : String)
    (d : LevelCompletionData) (l : List LevelCompletionData) :
    (recordOf (completeLevel s levelId d) levelId =
      { levelId := levelId
        completed := true
        bestTimeMs :=
          some (match (recordOf s levelId).bestTimeMs with
            | none => d.timeMs
            | some t => min t d.timeMs)
        bestCollectibles := max (recordOf s levelId).bestCollectibles d.picked
        totalDeaths := (recordOf s levelId).totalDeaths + d.deaths }) ∧
    timeLE (recordOf (completeAll s levelId l) levelId).bestTimeMs
      (recordOf s levelId).bestTimeMs ∧
    (recordOf s levelId).bestCollectibles ≤
      (recordOf (completeAll s levelId l) levelId).bestCollectibles ∧
    (recordOf (completeAll s levelId l) levelId).totalDeaths =
      (recordOf s levelId).totalDeaths + (l.map LevelCompletionData.deaths).sum := by
  exact ⟨recordOf_completeLevel s levelId d,
    recordOf_completeAll_bestTime s levelId l,
    recordOf_completeAll_collectibles s levelId l,
    recordOf_completeAll_deaths s levelId l⟩

/-- The empty store a fresh GameStateManager starts from. -/
def emptyGameState : GameStateData :=
  { levelProgress := [], totalCoinsCollected := 0, totalDeaths := 0 }

/-- A sample completion for exercising the progress store. -/
def sampleCompletion : LevelCompletionData :=
  { id := "wind_01", timeMs := 42000, picked := 2, deaths := 1 }

/-- A second, faster sample completion. -/
def sampleCompletion2 : LevelCompletionData :=
  { id := "wind_01", timeMs := 30000, picked := 1, deaths := 4 }

/-- Witness for C1 at a concrete store, level and completion sequence. -/
theorem completeLevel_merge_correct_witness :
    (recordOf (completeLevel emptyGameState "wind_01" sampleCompletion) "wind_01" =
      { levelId := "wind_01"
        completed := true
        bestTimeMs :=
          some (match (recordOf emptyGameState "wind_01").bestTimeMs with
            | none => sampleCompletion.timeMs
            | some t => min t sampleCompletion.timeMs)
        bestCollectibles :=
          max (recordOf emptyGameState "wind_01").bestCollectibles sampleCompletion.picked
        totalDeaths :=
          (recordOf emptyGameState "wind_01").totalDeaths + sampleCompletion.deaths }) ∧
    timeLE
      (recordOf (completeAll emptyGameState "wind_01" [sampleCompletion, sampleCompletion2])
        "wind_01").bestTimeMs
      (recordOf emptyGameState "wind_01").bestTimeMs ∧
    (recordOf emptyGameState "wind_01").bestCollectibles ≤
      (recordOf (completeAll emptyGameState "wind_01" [sampleCompletion, sampleCompletion2])
        "wind_01").bestCollectibles ∧
    (recordOf (completeAll emptyGameState "wind_01" [sampleCompletion, sampleCompletion2])
        "wind_01").totalDeaths =
      (recordOf emptyGameState "wind_01").totalDeaths +
        ([sampleCompletion, sampleCompletion2].map LevelCompletionData.deaths).sum :=
  completeLevel_merge_correct emptyGameState "wind_01" sampleCompletion
    [sampleCompletion, sampleCompletion2]

/-- C10: every `completeLevel` call bumps the store-wide aggregates by the new
attempt itself — `totalCoinsCollected` by `d.picked` and the global
`totalDeaths` by `d.deaths` — so across any sequence of completions of the
same level the global coin total accumulates the picks of every replay rather
than a per-level best. -/
theorem completeLevel_global_totals (s : GameStateData) (levelId : String)
    (d : LevelCompletionData) (l : List LevelCompletionData) :
    (completeLevel s levelId d).totalCoinsCollected = s.totalCoinsCollected + d.picked ∧
    (completeLevel s levelId d).totalDeaths = s.totalDeaths + d.deaths ∧
    (completeAll s levelId l).totalCoinsCollected =
      s.totalCoinsCollected + (l.map LevelCompletionData.picked).sum ∧
    (completeAll s levelId l).totalDeaths =
      s.totalDeaths + (l.map LevelCompletionData.deaths).sum := by
  refine ⟨rfl, rfl, ?_, ?_⟩
  · induction l generalizing s with
    | nil => simp [completeAll]
    | cons d2 l2 ih =>
      have hstep : completeAll s levelId (d2 :: l2) =
          completeAll (completeLevel s levelId d2) levelId l2 := rfl
      rw [hstep, ih]
      simp [completeLevel]
      omega
  · induction l generalizing s with
    | nil => simp [completeAll]
    | cons d2 l2 ih =>
      have hstep : completeAll s levelId (d2 :: l2) =
          completeAll (completeLevel s levelId d2) levelId l2 := rfl
      rw [hstep, ih]
      simp [completeLevel]
      omega

/-! ## Wind zones (MainScene.updateWindZones) -/

/-- The two wind-zone kinds of the schema. -/
inductive WindZoneType where
  | constZone : WindZoneType
  | pulsed : WindZoneType
deriving Repr, DecidableEq

/-- Embeds the `WindZone` interface of schema.ts; coordinates and forces are
JavaScript numbers, embedded as rationals, and the optional pulse duration is
an integral number of milliseconds. -/
structure WindZone where
  x : ℚ
  y : ℚ
  width : ℚ
  height : ℚ
  forceX : ℚ
  forceY : ℚ
  type : WindZoneType
  pulseDuration : Option Nat
deriving Repr, DecidableEq

/-- Embeds MainScene's internal `WindZoneData`: a zone plus its mutable
per-session state. -/
structure WindZoneData where
  zone : WindZone
  active : Bool
  pulseTimer : Nat
deriving Repr, DecidableEq

/-- MainScene's `WIND_FORCE_MULTIPLIER` constant. -/
def WIND_FORCE_MULTIPLIER : ℚ := 1

/-- The point-in-rectangle containment test of `updateWindZones`: the player
center against the axis-aligned box centered at the zone's x/y with width and
height as full extents, bounds inclusive. -/
def inZone (px py : ℚ) (z : WindZone) : Bool :=
  decide (z.x - z.width / 2 ≤ px) && decide (px ≤ z.x + z.width / 2) &&
    decide (z.y - z.height / 2 ≤ py) && decide (py ≤ z.y + z.height / 2)

/-- Embeds one zone's slice of `updateWindZones` for one tick: if the player
is outside nothing happens; a constant zone sets the acceleration to its
force; a pulsed zone with a truthy (present and nonzero) pulse duration adds
the frame delta to its timer and sets the force only while the timer's cycle
position `timer % (2 * p)` is below `p`.  Returns the updated zone state and
the acceleration written this tick (`none` when the zone wrote none). -/
def updateWindZone (wd : WindZoneData) (px py : ℚ) (delta : Nat) :
    WindZoneData × Option (ℚ × ℚ) :=
  if inZone px py wd.zone then
    match wd.zone.type with
    | WindZoneType.constZone =>
        (wd, some (wd.zone.forceX * WIND_FORCE_MULTIPLIER,
          wd.zone.forceY * WIND_FORCE_MULTIPLIER))
    | WindZoneType.pulsed =>
        match wd.zone.pulseDuration with
        | none => (wd, none)
        | some p =>
            if p = 0 then (wd, none)
            else
              let timer := wd.pulseTimer + delta
              let cycle := timer % (2 * p)
              if cycle < p then
                ({ wd with pulseTimer := timer },
                  some (wd.zone.forceX * WIND_FORCE_MULTIPLIER,
                    wd.zone.forceY * WIND_FORCE_MULTIPLIER))
              else ({ wd with pulseTimer := timer }, none)
  else (wd, none)

/-- C2: on a tick with the player inside a pulsed zone whose pulse duration is
the number p, the wind force is applied exactly when
`(pulseTimer mod (2 * p)) < p`, where pulseTimer is the accumulated timer
after adding this frame's delta — a square wave with a 50 percent duty cycle;
when applied, the written acceleration is the zone's force times the
multiplier. -/
theorem pulsedWind_duty_cycle (wd : WindZoneData) (px py : ℚ) (delta p : Nat)
    (htype : wd.zone.type = WindZoneType.pulsed)
    (hp : wd.zone.pulseDuration = some p)
    (hin : inZone px py wd.zone = true) :
    ((updateWindZone wd px py delta).2 ≠ none ↔
      (wd.pulseTimer + delta) % (2 * p) < p) ∧
    ((wd.pulseTimer + delta) % (2 * p) < p →
      (updateWindZone wd px py delta).2 =
        some (wd.zone.forceX * WIND_FORCE_MULTIPLIER,
          wd.zone.forceY * WIND_FORCE_MULTIPLIER)) := by
  unfold updateWindZone
  rw [if_pos hin, htype, hp]
  by_cases h0 : p = 0
  · subst h0
    simp
  · simp only [if_neg h0]
    by_cases hc : (wd.pulseTimer + delta) % (2 * p) < p
    · simp [hc]
    · simp [hc]

/-- A concrete pulsed zone state: centered at the origin, 100 wide and high,
force (120, -30), pulse duration 500 ms, timer at 0. -/
def samplePulsedZone : WindZoneData :=
  { zone :=
      { x := 0, y := 0, width := 100, height := 100
        forceX := 120, forceY := -30
        type := WindZoneType.pulsed
        pulseDuration := some 500 }
    active := true
    pulseTimer := 0 }

theorem samplePulsedZone_inZone : inZone 0 0 samplePulsedZone.zone = true := by
  norm_num [inZone, samplePulsedZone]

/-- Witness for C2: with the sample zone, the player at the origin and a
300 ms delta, the timer lands at 300, inside the active half of the cycle,
and the force is written. -/
theorem pulsedWind_duty_cycle_witness :
    (((updateWindZone samplePulsedZone 0 0 300).2 ≠ none ↔
      (samplePulsedZone.pulseTimer + 300) % (2 * 500) < 500) ∧
    ((samplePulsedZone.pulseTimer + 300) % (2 * 500) < 500 →
      (updateWindZone samplePulsedZone 0 0 300).2 =
        some (samplePulsedZone.zone.forceX * WIND_FORCE_MULTIPLIER,
          samplePulsedZone.zone.forceY * WIND_FORCE_MULTIPLIER))) :=
  pulsedWind_duty_cycle samplePulsedZone 0 0 300 500 rfl rfl samplePulsedZone_inZone

theorem windZone_timer_step (wd : WindZoneData) (px py : ℚ) (delta p : Nat)
    (htype : wd.zone.type = WindZoneType.pulsed)
    (hp : wd.zone.pulseDuration = some p)
    (hp0 : p ≠ 0)
    (hin : inZone px py wd.zone = true) :
    (updateWindZone wd px py delta).1.pulseTimer = wd.pulseTimer + delta := by
  unfold updateWindZone
  rw [if_pos hin, htype, hp]
  simp only [if_neg hp0]
  by_cases hc : (wd.pulseTimer + delta) % (2 * p) < p
  · simp [hc]
  · simp [hc]

/-- C9 counterexample: the stored pulse timer does not wrap at twice the pulse
duration.  With the sample zone (pulse duration 500) and a single 1200 ms
in-zone tick, the stored timer is 1200, at least 2 * 500. -/
theorem pulseTimer_no_wrap_cex :
    (updateWindZone samplePulsedZone 0 0 1200).1.pulseTimer = 1200 ∧
    ¬ (updateWindZone samplePulsedZone 0 0 1200).1.pulseTimer < 2 * 500 := by
  have h := windZone_timer_step samplePulsedZone 0 0 1200 500 rfl rfl
    (by norm_num) samplePulsedZone_inZone
  rw [h]
  exact ⟨rfl, by decide⟩

/-- C9 amended: the stored pulse timer merely accumulates the elapsed time of
in-zone ticks, without wrapping; what stays strictly below `2 * p` is the
derived cycle position `timer % (2 * p)` that the duty-cycle test uses. -/
theorem pulseTimer_accumulates (wd : WindZoneData) (px py : ℚ) (delta p : Nat)
    (htype : wd.zone.type = WindZoneType.pulsed)
    (hp : wd.zone.pulseDuration = some p)
    (hp0 : p ≠ 0)
    (hin : inZone px py wd.zone = true) :
    (updateWindZone wd px py delta).1.pulseTimer = wd.pulseTimer + delta ∧
    (updateWindZone wd px py delta).1.pulseTimer % (2 * p) < 2 * p := by
  have hmain := windZone_timer_step wd px py delta p htype hp hp0 hin
  exact ⟨hmain, hmain ▸ Nat.mod_lt _ (by omega)⟩

/-- Witness for C9's amended statement at the sample zone with a 700 ms
delta. -/
theorem pulseTimer_accumulates_witness :
    (updateWindZone samplePulsedZone 0 0 700).1.pulseTimer =
      samplePulsedZone.pulseTimer + 700 ∧
    (updateWindZone samplePulsedZone 0 0 700).1.pulseTimer % (2 * 500) < 2 * 500 :=
  pulseTimer_accumulates samplePulsedZone 0 0 700 500 rfl rfl (by decide)
    samplePulsedZone_inZone

/-! ## Jump logic (MainScene.handlePlayerMovement) -/

/-- MainScene's `JUMP_VELOCITY` constant. -/
def JUMP_VELOCITY : Int := -450

/-- The jump-relevant slice of the player state: the `canJump` availability
flag and the vertical velocity. -/
structure JumpState where
  canJump : Bool
  vy : Int
deriving Repr, DecidableEq

/-- Embeds the jump part of `handlePlayerMovement` for one tick, given the
jump-intent (up arrow held) and the touching-floor flag supplied by the
collision system: fire the jump (set the vertical velocity, clear the flag)
when intent is held while grounded with the flag set, then restore the flag
when intent is released while grounded.  Returns the new state and whether
the jump fired this tick. -/
def jumpStep (st : JumpState) (upHeld onGround : Bool) : JumpState × Bool :=
  let fire := upHeld && onGround && st.canJump
  let st1 : JumpState := if fire then { canJump := false, vy := JUMP_VELOCITY } else st
  let st2 : JumpState := if (!upHeld) && onGround then { st1 with canJump := true } else st1
  (st2, fire)

/-- Runs `jumpStep` over a list of (upHeld, onGround) ticks, counting how many
ticks fired the jump. -/
def jumpRun (st : JumpState) (ticks : List (Bool × Bool)) : JumpState × Nat :=
  match ticks with
  | [] => (st, 0)
  | t :: rest =>
    let s1 := jumpStep st t.1 t.2
    let s2 := jumpRun s1.1 rest
    (s2.1, (if s1.2 then 1 else 0) + s2.2)

theorem jumpRun_held_dead (st : JumpState) (n : Nat) (h : st.canJump = false) :
    jumpRun st (List.replicate n (true, true)) = (st, 0) := by
  induction n with
  | zero => rfl
  | succ n ih =>
    have hstep : jumpStep st true true = (st, false) := by
      simp [jumpStep, h]
    simp only [List.replicate_succ, jumpRun, hstep, ih]
    simp

/-- C3: the jump fires exactly on a tick with intent held, grounded and the
availability flag set; firing sets the vertical velocity to the fixed jump
velocity and clears the flag; from a cleared flag, the flag is restored
exactly on a tick where intent is released while grounded; and holding jump
on every tick of a grounded contact fires exactly once however many ticks the
contact lasts. -/
theorem jump_debounce_correct (st : JumpState) (upHeld onGround : Bool) (n : Nat) :
    ((jumpStep st upHeld onGround).2 = true ↔
      (upHeld = true ∧ onGround = true ∧ st.canJump = true)) ∧
    ((jumpStep st upHeld onGround).2 = true →
      (jumpStep st upHeld onGround).1.canJump = false ∧
      (jumpStep st upHeld onGround).1.vy = JUMP_VELOCITY) ∧
    (st.canJump = false →
      ((jumpStep st upHeld onGround).1.canJump = true ↔
        (upHeld = false ∧ onGround = true))) ∧
    (st.canJump = true → (jumpRun st (List.replicate (n + 1) (true, true))).2 = 1) := by
  refine ⟨?_, ?_, ?_, ?_⟩
  · cases upHeld <;> cases onGround <;> cases h : st.canJump <;> simp [jumpStep, h]
  · cases upHeld <;> cases onGround <;> cases h : st.canJump <;> simp [jumpStep, h]
  · intro h
    cases upHeld <;> cases onGround <;> simp [jumpStep, h]
  · intro h
    have hstep : jumpStep st true true =
        ({ canJump := false, vy := JUMP_VELOCITY }, true) := by
      simp [jumpStep, h]
    simp only [List.replicate_succ, jumpRun, hstep,
      jumpRun_held_dead { canJump := false, vy := JUMP_VELOCITY } n rfl]
    simp

/-- Witness for C3 at a concrete grounded state held for six ticks. -/
theorem jump_debounce_correct_witness :
    (((jumpStep { canJump := true, vy := 0 } true true).2 = true ↔
      (true = true ∧ true = true ∧ JumpState.canJump { canJump := true, vy := 0 } = true)) ∧
    ((jumpStep { canJump := true, vy := 0 } true true).2 = true →
      (jumpStep { canJump := true, vy := 0 } true true).1.canJump = false ∧
      (jumpStep { canJump := true, vy := 0 } true true).1.vy = JUMP_VELOCITY) ∧
    (JumpState.canJump { canJump := true, vy := 0 } = false →
      ((jumpStep { canJump := true, vy := 0 } true true).1.canJump = true ↔
        (true = false ∧ true = true))) ∧
    (JumpState.canJump { canJump := true, vy := 0 } = true →
      (jumpRun { canJump := true, vy := 0 } (List.replicate (5 + 1) (true, true))).2 = 1)) :=
  jump_debounce_correct { canJump := true, vy := 0 } true true 5

/-! ## Hint policy (MainScene.checkHints) -/

/-- Embeds `checkHints` as a function from the level's hints, the death count
and the current hint display (`some` shown text or `none` hidden) to the new
display.  Below three deaths, or with no hints, the hint is hidden; otherwise
the clamped index `min (deaths / 3 - 1) (hints.length - 1)` selects a hint,
which is shown if it is a truthy (non-empty) string and otherwise leaves the
display untouched. -/
def checkHints (hints : List String) (deaths : Nat) (display : Option String) :
    Option String :=
  if 3 ≤ deaths ∧ 0 < hints.length then
    let hintIndex := min (deaths / 3 - 1) (hints.length - 1)
    let hint := hints.getD hintIndex ""
    if hint ≠ "" then some hint else display
  else none

/-- C4 counterexample: the claim says a non-empty hints array with at least
three deaths always shows the selected hint, but a selected hint that is the
empty string is falsy in the source's truthiness guard, so the display is
left unchanged (here: still hidden) instead of showing it. -/
theorem checkHints_empty_string_cex :
    checkHints [""] 3 none ≠
      some (List.getD [""] (min (3 / 3 - 1) (List.length [""] - 1)) "") := by
  decide

/-- C4 amended: below three deaths or with an empty hints array the hint is
hidden and nothing fails; otherwise the selected index
`min (deaths / 3 - 1, hints.length - 1)` never exceeds the array bounds and
the selected hint is shown whenever it is a non-empty string, an empty-string
hint leaving the display unchanged. -/
theorem checkHints_correct (hints : List String) (deaths : Nat)
    (display : Option String) :
    (deaths < 3 ∨ hints = [] → checkHints hints deaths display = none) ∧
    (3 ≤ deaths → hints ≠ [] →
      min (deaths / 3 - 1) (hints.length - 1) < hints.length ∧
      (hints.getD (min (deaths / 3 - 1) (hints.length - 1)) "" ≠ "" →
        checkHints hints deaths display =
          some (hints.getD (min (deaths / 3 - 1) (hints.length - 1)) "")) ∧
      (hints.getD (min (deaths / 3 - 1) (hints.length - 1)) "" = "" →
        checkHints hints deaths display = display)) := by
  constructor
  · intro h
    rcases h with h | h
    · rw [checkHints, if_neg]
      intro hc
      omega
    · rw [checkHints, if_neg]
      intro hc
      rw [h] at hc
      simp at hc
  · intro h3 hne
    have hlen : 0 < hints.length := List.length_pos.mpr hne
    refine ⟨?_, ?_, ?_⟩
    · have : min (deaths / 3 - 1) (hints.length - 1) ≤ hints.length - 1 :=
        min_le_right _ _
      omega
    · intro hval
      rw [checkHints, if_pos ⟨h3, hlen⟩]
      simp only [if_pos hval]
    · intro hval
      rw [checkHints, if_pos ⟨h3, hlen⟩]
      simp only [hval]
      simp

/-- Witness for C4 at hints = ["h0", "h1"] with seven deaths: the display
shows "h1". -/
theorem checkHints_correct_witness :
    (7 < 3 ∨ (["h0", "h1"] : List String) = [] →
      checkHints ["h0", "h1"] 7 none = none) ∧
    (3 ≤ 7 → (["h0", "h1"] : List String) ≠ [] →
      min (7 / 3 - 1) (List.length ["h0", "h1"] - 1) < List.length ["h0", "h1"] ∧
      (List.getD ["h0", "h1"] (min (7 / 3 - 1) (List.length ["h0", "h1"] - 1)) "" ≠ "" →
        checkHints ["h0", "h1"] 7 none =
          some (List.getD ["h0", "h1"] (min (7 / 3 - 1) (List.length ["h0", "h1"] - 1)) "")) ∧
      (List.getD ["h0", "h1"] (min (7 / 3 - 1) (List.length ["h0", "h1"] - 1)) "" = "" →
        checkHints ["h0", "h1"] 7 none = none)) :=
  checkHints_correct ["h0", "h1"] 7 none

/-! ## Level validation (schema.ts) -/

/-- A JavaScript value as the validator sees it: number, string, boolean,
null, undefined, array or plain object (fields as an association list). -/
inductive JSVal where
  | vnum : ℚ → JSVal
  | vstr : String → JSVal
  | vbool : Bool → JSVal
  | vnull : JSVal
  | vundef : JSVal
  | varr : List JSVal → JSVal
  | vobj : List (String × JSVal) → JSVal

namespace JSVal

/-- Strict equality `v === 's'` against a string literal. -/
def eqStr (v : JSVal) (s : String) : Bool :=
  match v with
  | vstr t => t = s
  | _ => false

/-- Property access `v.k`: a named field of an object, `undefined` elsewhere
(named properties of arrays other than indices are undefined). -/
def getField (v : JSVal) (k : String) : JSVal :=
  match v with
  | vobj fields => ((alGet fields k).getD vundef)
  | _ => vundef

/-- JavaScript truthiness. -/
def truthy (v : JSVal) : Bool :=
  match v with
  | vnum q => q ≠ 0
  | vstr s => s ≠ ""
  | vbool b => b
  | vnull => false
  | vundef => false
  | varr _ => true
  | vobj _ => true

/-- Whether `typeof v` is the string "number". -/
def typeofNumber (v : JSVal) : Bool :=
  match v with
  | vnum _ => true
  | _ => false

/-- Whether `typeof v` is the string "string". -/
def typeofString (v : JSVal) : Bool :=
  match v with
  | vstr _ => true
  | _ => false

/-- Whether `typeof v` is the string "object" (true for plain objects, arrays
and null). -/
def typeofObject (v : JSVal) : Bool :=
  match v with
  | vobj _ => true
  | varr _ => true
  | vnull => true
  | _ => false

/-- `Array.isArray`. -/
def isArray (v : JSVal) : Bool :=
  match v with
  | varr _ => true
  | _ => false

/-- The shared `!obj || typeof obj !== 'object'` guard of every nested
predicate of schema.ts: passes exactly the truthy values whose typeof is
"object", that is, arrays and plain objects. -/
def objGuard (v : JSVal) : Bool :=
  truthy v && typeofObject v

/-- The `.every` combinator applied to an array value (false on
non-arrays; the validator only calls it after `Array.isArray`). -/
def jsEvery (v : JSVal) (p : JSVal → Bool) : Bool :=
  match v with
  | varr l => l.all p
  | _ => false

end JSVal

open JSVal

/-- Embeds `isVector2` of schema.ts. -/
def isVector2 (v : JSVal) : Bool :=
  objGuard v && typeofNumber (getField v "x") && typeofNumber (getField v "y")

/-- Embeds `isGoal` of schema.ts. -/
def isGoal (v : JSVal) : Bool :=
  objGuard v && typeofNumber (getField v "x") && typeofNumber (getField v "y") &&
    typeofNumber (getField v "radius")

/-- Embeds `isPlatform` of schema.ts. -/
def isPlatform (v : JSVal) : Bool :=
  objGuard v && typeofNumber (getField v "x") && typeofNumber (getField v "y") &&
    typeofNumber (getField v "width") && typeofNumber (getField v "height")

/-- Embeds `isHazard` of schema.ts: the type field must be one of the three
hazard variants, with numeric position and extents. -/
def isHazard (v : JSVal) : Bool :=
  objGuard v &&
    (eqStr (getField v "type") "spikes" || eqStr (getField v "type") "lava" ||
      eqStr (getField v "type") "void") &&
    typeofNumber (getField v "x") && typeofNumber (getField v "y") &&
    typeofNumber (getField v "width") && typeofNumber (getField v "height")

/-- Embeds `isCollectible` of schema.ts: numeric x and y and a string id, with
no uniqueness requirement. -/
def isCollectible (v : JSVal) : Bool :=
  objGuard v && typeofNumber (getField v "x") && typeofNumber (getField v "y") &&
    typeofString (getField v "id")

/-- Embeds `isWindZone` of schema.ts, including the extra pulse-duration
requirement for pulsed zones. -/
def isWindZone (v : JSVal) : Bool :=
  (objGuard v &&
    typeofNumber (getField v "x") && typeofNumber (getField v "y") &&
    typeofNumber (getField v "width") && typeofNumber (getField v "height") &&
    typeofNumber (getField v "forceX") && typeofNumber (getField v "forceY") &&
    (eqStr (getField v "type") "constant" || eqStr (getField v "type") "pulsed")) &&
  !(eqStr (getField v "type") "pulsed" && !typeofNumber (getField v "pulseDuration"))

/-- Embeds `isMovingPlatform` of schema.ts. -/
def isMovingPlatform (v : JSVal) : Bool :=
  objGuard v && typeofNumber (getField v "x") && typeofNumber (getField v "y") &&
    typeofNumber (getField v "width") && typeofNumber (getField v "height") &&
    typeofNumber (getField v "targetX") && typeofNumber (getField v "targetY") &&
    typeofNumber (getField v "speed")

/-- Embeds `isCheckpoint` of schema.ts. -/
def isCheckpoint (v : JSVal) : Bool :=
  objGuard v && typeofNumber (getField v "x") && typeofNumber (getField v "y") &&
    typeofNumber (getField v "radius")

/-- Embeds `validateLevelData` of schema.ts: the object guard, the five
scalar fields, the two nested records, the eight array fields, and the
per-element predicates over each array. -/
def validateLevelData (data : JSVal) : Bool :=
  objGuard data &&
  (typeofString (getField data "id") && typeofString (getField data "name") &&
    typeofString (getField data "description") &&
    typeofNumber (getField data "difficulty") &&
    typeofNumber (getField data "timeGoalSeconds")) &&
  (isVector2 (getField data "playerSpawn") && isGoal (getField data "goal") &&
    isArray (getField data "platforms") && isArray (getField data "hazards") &&
    isArray (getField data "collectibles") && isArray (getField data "windZones") &&
    isArray (getField data "movingPlatforms") && isArray (getField data "checkpoints") &&
    isArray (getField data "hints")) &&
  (jsEvery (getField data "platforms") isPlatform &&
    jsEvery (getField data "hazards") isHazard &&
    jsEvery (getField data "collectibles") isCollectible &&
    jsEvery (getField data "windZones") isWindZone &&
    jsEvery (getField data "movingPlatforms") isMovingPlatform &&
    jsEvery (getField data "checkpoints") isCheckpoint &&
    jsEvery (getField data "hints") typeofString)

/-- The collectible id strings of a level document, in array order. -/
def collectibleIds (data : JSVal) : List String :=
  match getField data "collectibles" with
  | varr l =>
      l.map (fun c =>
        match getField c "id" with
        | vstr s => s
        | _ => "")
  | _ => []

/-- A structurally well-formed level document whose two collectibles share
the id "a". -/
def dupIdDoc : JSVal :=
  vobj
    [("id", vstr "wind_dup"), ("name", vstr "Dup"), ("description", vstr "dup ids"),
      ("difficulty", vnum 1), ("timeGoalSeconds", vnum 60),
      ("playerSpawn", vobj [("x", vnum 0), ("y", vnum 0)]),
      ("goal", vobj [("x", vnum 10), ("y", vnum 0), ("radius", vnum 1)]),
      ("platforms", varr []), ("hazards", varr []),
      ("collectibles", varr
        [vobj [("x", vnum 0), ("y", vnum 0), ("id", vstr "a")],
          vobj [("x", vnum 1), ("y", vnum 1), ("id", vstr "a")]]),
      ("windZones", varr []), ("movingPlatforms", varr []),
      ("checkpoints", varr []), ("hints", varr [])]

/-- C7 counterexample: `validateLevelData` accepts a document whose
collectible ids are not pairwise distinct — it never checks uniqueness. -/
theorem validateLevelData_duplicate_ids_cex :
    validateLevelData dupIdDoc = true ∧ ¬ (collectibleIds dupIdDoc).Nodup := by
  constructor
  · decide
  · decide

/-- C7 amended: acceptance by `validateLevelData` guarantees only the
per-element structure of the collectibles array — each entry is an object
with numeric x and y and a string id — not uniqueness of the ids. -/
theorem validateLevelData_collectibles_structural (data : JSVal)
    (h : validateLevelData data = true) :
    jsEvery (getField data "collectibles") isCollectible = true := by
  rw [validateLevelData] at h
  simp only [Bool.and_eq_true] at h
  tauto

/-- Witness for C7's amended statement at the duplicate-id document. -/
theorem validateLevelData_collectibles_structural_witness :
    jsEvery (getField dupIdDoc "collectibles") isCollectible = true :=
  validateLevelData_collectibles_structural dupIdDoc (by decide)

/-! ## Level loader (loadLevel.ts) -/

/-- The outcome of one `loadLevel` call: the returned value or thrown error
message, the level cache afterwards, and whether this call fetched the level
source and whether it ran validation. -/
structure LoadResult where
  result : Except String JSVal
  cache : List (String × JSVal)
  fetched : Bool
  validated : Bool

/-- Embeds `loadLevel` of loadLevel.ts over an abstract fetch boundary (the
dynamic JSON import, `none` when the import rejects): a cache hit returns the
cached value untouched, otherwise the document is fetched and validated, a
success is cached and returned, and any fetch or validation failure is caught
and rethrown as the single `Could not load level` error carrying the level
id, leaving the cache unchanged. -/
def loadLevel (fetch : String → Option JSVal) (cache : List (String × JSVal))
    (levelId : String) : LoadResult :=
  match alGet cache levelId with
  | some d => { result := Except.ok d, cache := cache, fetched := false, validated := false }
  | none =>
    match fetch levelId with
    | none =>
        { result := Except.error ("Could not load level " ++ levelId)
          cache := cache, fetched := true, validated := false }
    | some doc =>
        if validateLevelData doc then
          { result := Except.ok doc, cache := alSet cache levelId doc
            fetched := true, validated := true }
        else
          { result := Except.error ("Could not load level " ++ levelId)
            cache := cache, fetched := true, validated := true }

theorem loadLevel_ok_cached (fetch : String → Option JSVal)
    (cache : List (String × JSVal)) (levelId : String) (d : JSVal)
    (h : (loadLevel fetch cache levelId).result = Except.ok d) :
    alGet (loadLevel fetch cache levelId).cache levelId = some d := by
  cases hc : alGet cache levelId with
  | some d1 =>
    simp only [loadLevel, hc] at h ⊢
    simp only [Except.ok.injEq] at h
    exact congrArg some h
  | none =>
    simp only [loadLevel, hc] at h ⊢
    cases hf : fetch levelId with
    | none => simp only [hf] at h; simp at h
    | some doc =>
      simp only [hf] at h ⊢
      by_cases hv : validateLevelData doc = true
      · simp only [if_pos hv] at h ⊢
        simp only [Except.ok.injEq] at h
        rw [← h]
        exact alGet_alSet_self cache levelId doc
      · simp only [if_neg hv] at h
        simp at h

/-- C5: when a `loadLevel` call returns a level, a second call for the same
id on the resulting cache returns the identical cached value (value identity
embeds the source's reference identity), performs no fetch, runs no
validation and leaves the cache untouched. -/
theorem loadLevel_cached_idempotent (fetch : String → Option JSVal)
    (cache : List (String × JSVal)) (levelId : String) (d : JSVal)
    (h : (loadLevel fetch cache levelId).result = Except.ok d) :
    loadLevel fetch (loadLevel fetch cache levelId).cache levelId =
      { result := Except.ok d
        cache := (loadLevel fetch cache levelId).cache
        fetched := false
        validated := false } := by
  have hc := loadLevel_ok_cached fetch cache levelId d h
  generalize hgen : (loadLevel fetch cache levelId).cache = c2 at hc ⊢
  simp only [loadLevel, hc]

/-- A structurally valid single-collectible level document. -/
def okDoc : JSVal :=
  vobj
    [("id", vstr "wind_01"), ("name", vstr "Brisa"), ("description", vstr "ok"),
      ("difficulty", vnum 1), ("timeGoalSeconds", vnum 60),
      ("playerSpawn", vobj [("x", vnum 0), ("y", vnum 0)]),
      ("goal", vobj [("x", vnum 10), ("y", vnum 0), ("radius", vnum 1)]),
      ("platforms", varr []), ("hazards", varr []),
      ("collectibles", varr [vobj [("x", vnum 0), ("y", vnum 0), ("id", vstr "c1")]]),
      ("windZones", varr []), ("movingPlatforms", varr []),
      ("checkpoints", varr []), ("hints", varr [])]

/-- A fetch boundary that serves `okDoc` for the id "wind_01" and fails for
every other id. -/
def sampleFetch : String → Option JSVal :=
  fun levelId => if levelId = "wind_01" then some okDoc else none

/-- Witness for C5: loading "wind_01" from the empty cache succeeds, and the
reload is served by the cache with no fetch and no validation. -/
theorem loadLevel_cached_idempotent_witness :
    loadLevel sampleFetch (loadLevel sampleFetch [] "wind_01").cache "wind_01" =
      { result := Except.ok okDoc
        cache := (loadLevel sampleFetch [] "wind_01").cache
        fetched := false
        validated := false } :=
  loadLevel_cached_idempotent sampleFetch [] "wind_01" okDoc rfl

/-- C6: whenever `loadLevel` fails, the error is the `Could not load level`
message carrying the offending id, the cache is left exactly as it was and
holds no entry for that id (a failed load caches nothing), and failure can
only happen when the id was not already cached; conversely a returned value
is never partial — it is either the already-cached document or a document
that passed validation. -/
theorem loadLevel_failure_atomic (fetch : String → Option JSVal)
    (cache : List (String × JSVal)) (levelId : String) :
    (∀ e, (loadLevel fetch cache levelId).result = Except.error e →
      e = "Could not load level " ++ levelId ∧
      (loadLevel fetch cache levelId).cache = cache ∧
      alGet cache levelId = none) ∧
    (∀ d, (loadLevel fetch cache levelId).result = Except.ok d →
      alGet cache levelId = some d ∨ validateLevelData d = true) := by
  constructor
  · intro e he
    cases hc : alGet cache levelId with
    | some d1 => simp only [loadLevel, hc] at he; simp at he
    | none =>
      simp only [loadLevel, hc] at he ⊢
      cases hf : fetch levelId with
      | none =>
        simp only [hf] at he ⊢
        simp only [Except.error.injEq] at he
        exact ⟨he.symm, by simp, by simp⟩
      | some doc =>
        simp only [hf] at he ⊢
        by_cases hv : validateLevelData doc = true
        · simp only [if_pos hv] at he; simp at he
        · simp only [if_neg hv] at he ⊢
          simp only [Except.error.injEq] at he
          exact ⟨he.symm, by simp, by simp⟩
  · intro d hd
    cases hc : alGet cache levelId with
    | some d1 =>
      simp only [loadLevel, hc] at hd
      simp only [Except.ok.injEq] at hd
      left
      exact congrArg some hd
    | none =>
      simp only [loadLevel, hc] at hd
      cases hf : fetch levelId with
      | none => simp only [hf] at hd; simp at hd
      | some doc =>
        simp only [hf] at hd
        by_cases hv : validateLevelData doc = true
        · simp only [if_pos hv] at hd
          simp only [Except.ok.injEq] at hd
          right
          rw [← hd]
          exact hv
        · simp only [if_neg hv] at hd; simp at hd

/-- Witness for C6: loading the unknown id "wind_99" from the empty cache
fails with the error carrying that id, caching nothing, and the error branch
of the theorem is exercised at that concrete failure. -/
theorem loadLevel_failure_atomic_witness :
    ("Could not load level wind_99" : String) = "Could not load level " ++ "wind_99" ∧
    (loadLevel sampleFetch [] "wind_99").cache = ([] : List (String × JSVal)) ∧
    alGet ([] : List (String × JSVal)) "wind_99" = none :=
  (loadLevel_failure_atomic sampleFetch [] "wind_99").1
    "Could not load level wind_99" rfl

/-! ## Event bus (events.ts) -/

/-- Association-list key removal, embedding `Map.delete`. -/
def alErase {α : Type} (m : List (String × α)) (k : String) : List (String × α) :=
  match m with
  | [] => []
  | (k1, v) :: rest => if k1 = k then alErase rest k else (k1, v) :: alErase rest k

theorem alGet_alErase {α : Type} (m : List (String × α)) (k k2 : String) :
    alGet (alErase m k) k2 = if k2 = k then none else alGet m k2 := by
  induction m with
  | nil => simp [alErase, alGet]
  | cons hd tl ih =>
    obtain ⟨k1, v1⟩ := hd
    by_cases h1 : k1 = k
    · subst h1
      have hstep : alErase ((k1, v1) :: tl) k1 = alErase tl k1 := by simp [alErase]
      rw [hstep, ih]
      by_cases h2 : k2 = k1
      · simp [h2]
      · simp [h2, alGet, Ne.symm h2]
    · simp only [alErase, if_neg h1, alGet]
      by_cases h2 : k1 = k2
      · subst h2
        rw [if_neg (fun hh : k1 = k => h1 hh), if_pos rfl, if_pos rfl]
      · rw [if_neg h2, if_neg h2, ih]

/-- Embeds the `EventBus` object of events.ts: a Map from event key to the
Set of registered callbacks.  Callbacks are opaque and identified by a
number; a JS Set iterates in insertion order and holds each element once, so
each key's callback list is kept insertion-ordered and duplicate-free. -/
structure EventBus where
  events : List (String × List Nat)

/-- The bus with no registrations. -/
def emptyBus : EventBus := { events := [] }

/-- Embeds `EventBus.on`: create the key's Set when absent, then Set-add the
callback — a callback already registered for the key is kept once, at its
original position. -/
def busOn (b : EventBus) (e : String) (cb : Nat) : EventBus :=
  match alGet b.events e with
  | none => { events := alSet b.events e [cb] }
  | some l => if cb ∈ l then b else { events := alSet b.events e (l ++ [cb]) }

/-- Embeds `EventBus.off`: Set-delete the callback from the key's Set when
the key is present. -/
def busOff (b : EventBus) (e : String) (cb : Nat) : EventBus :=
  match alGet b.events e with
  | none => b
  | some l => { events := alSet b.events e (l.erase cb) }

/-- Embeds `EventBus.removeAllListeners`: a truthy key argument deletes that
key, otherwise the whole map is cleared. -/
def busRemoveAll (b : EventBus) (e : Option String) : EventBus :=
  match e with
  | some key => if key ≠ "" then { events := alErase b.events key } else { events := [] }
  | none => { events := [] }

/-- Embeds `EventBus.emit`: the callbacks invoked, in order, by one emission
for a key — every member of the key's Set in insertion order, none when the
key is absent. -/
def busEmit (b : EventBus) (e : String) : List Nat :=
  (alGet b.events e).getD []

/-- One emission with its payload: each invoked callback receives the very
same payload value `d`. -/
def busEmitPayload {α : Type} (b : EventBus) (e : String) (d : α) : List (Nat × α) :=
  (busEmit b e).map (fun cb => (cb, d))

/-- The bus API calls, for describing every reachable bus state. -/
inductive BusOp where
  | onOp : String → Nat → BusOp
  | offOp : String → Nat → BusOp
  | removeAllOp : Option String → BusOp

/-- One API call applied to a bus. -/
def busStep (b : EventBus) (op : BusOp) : EventBus :=
  match op with
  | BusOp.onOp e cb => busOn b e cb
  | BusOp.offOp e cb => busOff b e cb
  | BusOp.removeAllOp e => busRemoveAll b e

/-- The bus reached by a sequence of API calls from the fresh bus. -/
def runOps (ops : List BusOp) : EventBus :=
  ops.foldl busStep emptyBus

/-- Well-formedness: every key's callback list is duplicate-free, as a JS Set
guarantees. -/
def busWF (b : EventBus) : Prop :=
  ∀ e, (busEmit b e).Nodup

theorem busWF_empty : busWF emptyBus := by
  intro e
  simp [busEmit, emptyBus, alGet]

theorem busWF_busOn (b : EventBus) (e : String) (cb : Nat) (h : busWF b) :
    busWF (busOn b e cb) := by
  intro e2
  unfold busOn
  cases hc : alGet b.events e with
  | none =>
    by_cases h2 : e2 = e
    · subst h2
      simp [busEmit, alGet_alSet_self]
    · simp [busEmit, alGet_alSet_ne _ _ _ _ h2]
      exact h e2
  | some l =>
    by_cases hm : cb ∈ l
    · simp only [if_pos hm]
      exact h e2
    · simp only [if_neg hm]
      by_cases h2 : e2 = e
      · subst h2
        have hl : (busEmit b e2).Nodup := h e2
        rw [busEmit, hc] at hl
        simp only [Option.getD_some] at hl
        simp only [busEmit, alGet_alSet_self, Option.getD_some]
        simp [List.nodup_append, hl, hm]
      · simp only [busEmit, alGet_alSet_ne _ _ _ _ h2]
        exact h e2

theorem busWF_busOff (b : EventBus) (e : String) (cb : Nat) (h : busWF b) :
    busWF (busOff b e cb) := by
  intro e2
  unfold busOff
  cases hc : alGet b.events e with
  | none => exact h e2
  | some l =>
    by_cases h2 : e2 = e
    · subst h2
      have hl : (busEmit b e2).Nodup := h e2
      rw [busEmit, hc] at hl
      simp only [busEmit, alGet_alSet_self, Option.getD_some]
      exact hl.erase cb
    · simp only [busEmit, alGet_alSet_ne _ _ _ _ h2]
      exact h e2

theorem busWF_busRemoveAll (b : EventBus) (e : Option String) (h : busWF b) :
    busWF (busRemoveAll b e) := by
  intro e2
  cases e with
  | none => simp [busRemoveAll, busEmit, alGet]
  | some key =>
    by_cases hk : key ≠ ""
    · simp only [busRemoveAll, if_pos hk, busEmit, alGet_alErase]
      by_cases h2 : e2 = key
      · simp [h2]
      · simp only [if_neg h2]
        exact h e2
    · simp [busRemoveAll, hk, busEmit, alGet]

theorem busWF_runOps (ops : List BusOp) : busWF (runOps ops) := by
  have hgen : ∀ (l : List BusOp) (b : EventBus), busWF b → busWF (l.foldl busStep b) := by
    intro l
    induction l with
    | nil => intro b hb; exact hb
    | cons op rest ih =>
      intro b hb
      refine ih (busStep b op) ?_
      cases op with
      | onOp e cb => exact busWF_busOn b e cb hb
      | offOp e cb => exact busWF_busOff b e cb hb
      | removeAllOp e => exact busWF_busRemoveAll b e hb
  exact hgen ops emptyBus busWF_empty

/-- C8: for every bus reachable through the API, an emission invokes exactly
the callbacks currently registered for the key, in registration order, each
at most once, every one receiving the same payload; a new registration
appends to the key's order unless the callback is already registered (a
double registration is a single one); `off` removes exactly the named
callback; and registrations on one key never affect emissions on another. -/
theorem eventBus_emit_spec {α : Type} (ops : List BusOp) (e e2 : String) (cb : Nat)
    (d : α) :
    (busEmit (runOps ops) e).Nodup ∧
    busEmitPayload (runOps ops) e d = (busEmit (runOps ops) e).map (fun c => (c, d)) ∧
    busEmit (busOn (runOps ops) e cb) e =
      (if cb ∈ busEmit (runOps ops) e then busEmit (runOps ops) e
        else busEmit (runOps ops) e ++ [cb]) ∧
    busOn (busOn (runOps ops) e cb) e cb = busOn (runOps ops) e cb ∧
    busEmit (busOff (runOps ops) e cb) e = (busEmit (runOps ops) e).erase cb ∧
    (e2 ≠ e →
      busEmit (busOn (runOps ops) e cb) e2 = busEmit (runOps ops) e2 ∧
      busEmit (busOff (runOps ops) e cb) e2 = busEmit (runOps ops) e2) := by
  set b := runOps ops with hb
  refine ⟨busWF_runOps ops e, rfl, ?_, ?_, ?_, ?_⟩
  · unfold busOn
    cases hc : alGet b.events e with
    | none =>
      simp [busEmit, alGet_alSet_self, hc]
    | some l =>
      by_cases hm : cb ∈ l
      · simp [busEmit, hc, hm]
      · simp [busEmit, hc, hm, alGet_alSet_self]
  · unfold busOn
    cases hc : alGet b.events e with
    | none =>
      simp only [alGet_alSet_self]
      simp
    | some l =>
      by_cases hm : cb ∈ l
      · simp only [if_pos hm]
        rw [hc]
        simp [hm]
      · simp only [if_neg hm, alGet_alSet_self]
        have : cb ∈ l ++ [cb] := by simp
        simp [this]
  · unfold busOff
    cases hc : alGet b.events e with
    | none => simp [busEmit, hc]
    | some l => simp [busEmit, hc, alGet_alSet_self]
  · intro hne
    constructor
    · unfold busOn
      cases hc : alGet b.events e with
      | none => simp [busEmit, alGet_alSet_ne _ _ _ _ hne]
      | some l =>
        by_cases hm : cb ∈ l
        · simp [hm]
        · simp [hm, busEmit, alGet_alSet_ne _ _ _ _ hne]
    · unfold busOff
      cases hc : alGet b.events e with
      | none => rfl
      | some l => simp [busEmit, alGet_alSet_ne _ _ _ _ hne]

/-- A sample call sequence: two distinct subscribers on "a", a duplicate
registration of the first, and a removal of the second. -/
def busOpsEx : List BusOp :=
  [BusOp.onOp "a" 1, BusOp.onOp "a" 2, BusOp.onOp "a" 1, BusOp.offOp "a" 2]

/-- Witness for C8 at the sample call sequence, with the cross-key conjunct
discharged at the distinct key "b". -/
theorem eventBus_emit_spec_witness :
    (busEmit (runOps busOpsEx) "a").Nodup ∧
    busEmitPayload (runOps busOpsEx) "a" (37 : Nat) =
      (busEmit (runOps busOpsEx) "a").map (fun c => (c, (37 : Nat))) ∧
    busEmit (busOn (runOps busOpsEx) "a" 3) "a" =
      (if 3 ∈ busEmit (runOps busOpsEx) "a" then busEmit (runOps busOpsEx) "a"
        else busEmit (runOps busOpsEx) "a" ++ [3]) ∧
    busOn (busOn (runOps busOpsEx) "a" 3) "a" 3 = busOn (runOps busOpsEx) "a" 3 ∧
    busEmit (busOff (runOps busOpsEx) "a" 3) "a" = (busEmit (runOps busOpsEx) "a").erase 3 ∧
    (busEmit (busOn (runOps busOpsEx) "a" 3) "b" = busEmit (runOps busOpsEx) "b" ∧
      busEmit (busOff (runOps busOpsEx) "a" 3) "b" = busEmit (runOps busOpsEx) "b") := by
  have h := eventBus_emit_spec busOpsEx "a" "b" 3 (37 : Nat)
  exact ⟨h.1, h.2.1, h.2.2.1, h.2.2.2.1, h.2.2.2.2.1, h.2.2.2.2.2 (by decide)⟩

end Arcade
